import Mathlib

/-!
Verification of the variable-substitution engine (`substitute.ts`).

The source file contains two full implementations of `substitute`:
a table-driven one using precomputed character sets
(`CHARS_DOLLAR_BRACE`, `CHARS_DOLLAR`, `CHARS_PERCENT`) and an
exclusion-based one rejecting only `=`, NUL and the empty lookahead
(`invalidCharacters`).  Both are embedded below.  Strings are modelled
as lists of characters; `charAt` past the end of the string
(JavaScript's `""` result) is modelled by the empty-list pattern.
Errors carry no message text.  The inner name-scanning loops of the
source are expressed with `takeWhile`/`dropWhile`, which is exactly
what they compute since the closing delimiter is never a member of the
corresponding scan set.  An `.ok` result with no recursive call mirrors
a `break` statement that leaves the outer loop.
-/

/-- Error kinds thrown by the scanner, mirroring the `ParseError`
subclasses `NoNameError`, `UnterminatedVariableError` and
`BadCharacterError` of `_errors.ts`. -/
inductive Err where
  | noName
  | unterminated
  | badCharacter
deriving DecidableEq, Repr

instance (priority := 100) : DecidableEq (Except Err String) := fun a b =>
  match a, b with
  | .ok x, .ok y =>
    if h : x = y then isTrue (by rw [h]) else isFalse (by simp [h])
  | .error x, .error y =>
    if h : x = y then isTrue (by rw [h]) else isFalse (by simp [h])
  | .ok _, .error _ => isFalse (fun h => Except.noConfusion h)
  | .error _, .ok _ => isFalse (fun h => Except.noConfusion h)

/-- Characters valid within a dollar-brace variable `${VAR}`:
the set `CHARS_DOLLAR_BRACE` of the table-driven implementation.
Braces and the apostrophe are written with escape codes. -/
def CHARS_DOLLAR_BRACE : List Char :=
  ("abcdefghijklmnopqrstuvwxyz" ++
   "ABCDEFGHIJKLMNOPQRSTUVWXYZ" ++
   "`0123456789-" ++
   "~!@#$%^&*()_+" ++
   "[]\x7b|;:\x27\",.<>/? ").toList

/-- Characters valid within a bare dollar variable `$VAR`:
the set `CHARS_DOLLAR` of the table-driven implementation. -/
def CHARS_DOLLAR : List Char :=
  ("abcdefghijklmnopqrstuvwxyz" ++
   "ABCDEFGHIJKLMNOPQRSTUVWXYZ" ++
   "0123456789_").toList

/-- Characters valid within a percent variable `%VAR%`:
the set `CHARS_PERCENT` of the table-driven implementation. -/
def CHARS_PERCENT : List Char :=
  ("abcdefghijklmnopqrstuvwxyz" ++
   "ABCDEFGHIJKLMNOPQRSTUVWXYZ" ++
   "`0123456789-" ++
   "~!@#$^&*()_+" ++
   "[]\x7b\x7d|;:\x27\",.<>/? ").toList

/-- Length bound used by the termination arguments: dropping a prefix
never lengthens a list. -/
def dropWhileLenLE (p : Char → Bool) (l : List Char) :
    (l.dropWhile p).length ≤ l.length :=
  (List.dropWhile_sublist _).length_le

/-- The scanning loop of the table-driven `substitute` (first copy in
`substitute.ts`), recursing on the input suffix.  Each clause mirrors a
dispatch branch of the source loop. -/
def substituteAux (fn : String → Option String) (percent dollar strict : Bool) :
    List Char → Except Err String
  | [] => .ok ""
  | c :: rest =>
    if dollar && c == '$' then
      match rest with
      | '$' :: rest2 =>
        (substituteAux fn percent dollar strict rest2).map (fun s => "$" ++ s)
      | '\x7b' :: '\x7d' :: _ =>
        if strict then .error .noName else .ok "$\x7b\x7d"
      | '\x7b' :: rest2 =>
        match rest2.dropWhile (fun ch => CHARS_DOLLAR_BRACE.contains ch) with
        | '\x7d' :: _ =>
          (substituteAux fn percent dollar strict
              ((rest2.dropWhile (fun ch => CHARS_DOLLAR_BRACE.contains ch)).tail)).map
            (fun s => ((fn (rest2.takeWhile (fun ch => CHARS_DOLLAR_BRACE.contains ch)).asString).getD "") ++ s)
        | [] =>
          if strict then .error .unterminated
          else .ok ("$\x7b" ++ (rest2.takeWhile (fun ch => CHARS_DOLLAR_BRACE.contains ch)).asString)
        | ch :: _ =>
          if strict then .error .badCharacter
          else
            (substituteAux fn percent dollar strict
                ((rest2.dropWhile (fun ch => CHARS_DOLLAR_BRACE.contains ch)).tail)).map
              (fun s => "$\x7b" ++ (rest2.takeWhile (fun ch => CHARS_DOLLAR_BRACE.contains ch)).asString ++ String.singleton ch ++ s)
      | other =>
        if (other.takeWhile (fun ch => CHARS_DOLLAR.contains ch)).isEmpty then
          match other with
          | [] => .ok "$"
          | ch :: rest2 =>
            (substituteAux fn percent dollar strict rest2).map
              (fun s => "$" ++ String.singleton ch ++ s)
        else
          (substituteAux fn percent dollar strict
              (other.dropWhile (fun ch => CHARS_DOLLAR.contains ch))).map
            (fun s => ((fn (other.takeWhile (fun ch => CHARS_DOLLAR.contains ch)).asString).getD "") ++ s)
    else if percent && c == '%' then
      if rest.head? == some '%' then
        (substituteAux fn percent dollar strict rest.tail).map (fun s => "%" ++ s)
      else
        match rest.dropWhile (fun ch => CHARS_PERCENT.contains ch) with
        | '%' :: _ =>
          (substituteAux fn percent dollar strict
              ((rest.dropWhile (fun ch => CHARS_PERCENT.contains ch)).tail)).map
            (fun s => ((fn (rest.takeWhile (fun ch => CHARS_PERCENT.contains ch)).asString).getD "") ++ s)
        | [] =>
          if strict then .error .unterminated
          else .ok ("%" ++ (rest.takeWhile (fun ch => CHARS_PERCENT.contains ch)).asString)
        | ch :: _ =>
          if strict then .error .badCharacter
          else
            (substituteAux fn percent dollar strict
                ((rest.dropWhile (fun ch => CHARS_PERCENT.contains ch)).tail)).map
              (fun s => "%" ++ (rest.takeWhile (fun ch => CHARS_PERCENT.contains ch)).asString ++ String.singleton ch ++ s)
    else
      (substituteAux fn percent dollar strict rest).map
        (fun s => String.singleton c ++ s)
termination_by cs => cs.length
decreasing_by
  all_goals simp only [List.length_cons, List.length_tail]
  all_goals try omega
  all_goals try (have h3 := dropWhileLenLE (fun ch => CHARS_DOLLAR_BRACE.contains ch) rest2; omega)
  all_goals try (have h3 := dropWhileLenLE (fun ch => CHARS_PERCENT.contains ch) rest; omega)
  all_goals try (have h3 := dropWhileLenLE (fun ch => CHARS_PERCENT.contains ch) rest2; omega)
  all_goals try (have h3 := dropWhileLenLE (fun ch => CHARS_PERCENT.contains ch) other; omega)
  all_goals try (have h3 := dropWhileLenLE (fun ch => CHARS_DOLLAR.contains ch) other; omega)
  all_goals exact Nat.lt_succ_of_le (dropWhileLenLE _ _)

/-- Entry point of the table-driven `substitute`: scan the whole input.
The three configuration switches (`percent`, `dollar`, `strict`) are
passed positionally; all default to `true` in the source. -/
def substitute (str : String) (fn : String → Option String)
    (percent dollar strict : Bool) : Except Err String :=
  substituteAux fn percent dollar strict str.toList

/-- Characters rejected inside a reference by the exclusion-based
implementation (`invalidCharacters` in the second copy of
`substitute.ts`).  The JavaScript set also contains `""`, which in the
list model is the end of input, handled by the empty-list pattern. -/
def invalidCharacters : List Char := ['=', '\x00']

/-- Test of the character class `[A-Za-z0-9_]` used by the bare-variable
scan of the exclusion-based implementation. -/
def bareRegexTest (c : Char) : Bool :=
  ('A' ≤ c && c ≤ 'Z') || ('a' ≤ c && c ≤ 'z') || ('0' ≤ c && c ≤ '9') || c == '_'

/-- The scanning loop of the exclusion-based `substitute` (second copy
in `substitute.ts`).  Identical control flow to `substituteAux`, but
the brace and percent scans accept any character that is not the
closing delimiter and not in `invalidCharacters`, and the bare scan
uses the regex class `[A-Za-z0-9_]`. -/
def substituteExclusionAux (fn : String → Option String) (percent dollar strict : Bool) :
    List Char → Except Err String
  | [] => .ok ""
  | c :: rest =>
    if dollar && c == '$' then
      match rest with
      | '$' :: rest2 =>
        (substituteExclusionAux fn percent dollar strict rest2).map (fun s => "$" ++ s)
      | '\x7b' :: '\x7d' :: _ =>
        if strict then .error .noName else .ok "$\x7b\x7d"
      | '\x7b' :: rest2 =>
        match rest2.dropWhile
            (fun ch => !(ch == '\x7d') && !(invalidCharacters.contains ch)) with
        | '\x7d' :: _ =>
          (substituteExclusionAux fn percent dollar strict
              ((rest2.dropWhile
                (fun ch => !(ch == '\x7d') && !(invalidCharacters.contains ch))).tail)).map
            (fun s => ((fn (rest2.takeWhile (fun ch => !(ch == '\x7d') && !(invalidCharacters.contains ch))).asString).getD "") ++ s)
        | [] =>
          if strict then .error .unterminated
          else .ok ("$\x7b" ++ (rest2.takeWhile (fun ch => !(ch == '\x7d') && !(invalidCharacters.contains ch))).asString)
        | ch :: _ =>
          if strict then .error .badCharacter
          else
            (substituteExclusionAux fn percent dollar strict
                ((rest2.dropWhile
                  (fun ch => !(ch == '\x7d') && !(invalidCharacters.contains ch))).tail)).map
              (fun s => "$\x7b" ++ (rest2.takeWhile (fun ch => !(ch == '\x7d') && !(invalidCharacters.contains ch))).asString ++ String.singleton ch ++ s)
      | other =>
        if (other.takeWhile bareRegexTest).isEmpty then
          match other with
          | [] => .ok "$"
          | ch :: rest2 =>
            (substituteExclusionAux fn percent dollar strict rest2).map
              (fun s => "$" ++ String.singleton ch ++ s)
        else
          (substituteExclusionAux fn percent dollar strict
              (other.dropWhile bareRegexTest)).map
            (fun s => ((fn (other.takeWhile bareRegexTest).asString).getD "") ++ s)
    else if percent && c == '%' then
      if rest.head? == some '%' then
        (substituteExclusionAux fn percent dollar strict rest.tail).map (fun s => "%" ++ s)
      else
        match rest.dropWhile
            (fun ch => !(ch == '%') && !(invalidCharacters.contains ch)) with
        | '%' :: _ =>
          (substituteExclusionAux fn percent dollar strict
              ((rest.dropWhile
                (fun ch => !(ch == '%') && !(invalidCharacters.contains ch))).tail)).map
            (fun s => ((fn (rest.takeWhile (fun ch => !(ch == '%') && !(invalidCharacters.contains ch))).asString).getD "") ++ s)
        | [] =>
          if strict then .error .unterminated
          else .ok ("%" ++ (rest.takeWhile (fun ch => !(ch == '%') && !(invalidCharacters.contains ch))).asString)
        | ch :: _ =>
          if strict then .error .badCharacter
          else
            (substituteExclusionAux fn percent dollar strict
                ((rest.dropWhile
                  (fun ch => !(ch == '%') && !(invalidCharacters.contains ch))).tail)).map
              (fun s => "%" ++ (rest.takeWhile (fun ch => !(ch == '%') && !(invalidCharacters.contains ch))).asString ++ String.singleton ch ++ s)
    else
      (substituteExclusionAux fn percent dollar strict rest).map
        (fun s => String.singleton c ++ s)
termination_by cs => cs.length
decreasing_by
  all_goals simp only [List.length_cons, List.length_tail]
  all_goals try omega
  all_goals try (have h3 := dropWhileLenLE (fun ch => !(ch == '\x7d') && !(invalidCharacters.contains ch)) rest2; omega)
  all_goals try (have h3 := dropWhileLenLE (fun ch => !(ch == '%') && !(invalidCharacters.contains ch)) rest; omega)
  all_goals try (have h3 := dropWhileLenLE (fun ch => !(ch == '%') && !(invalidCharacters.contains ch)) rest2; omega)
  all_goals try (have h3 := dropWhileLenLE (fun ch => !(ch == '%') && !(invalidCharacters.contains ch)) other; omega)
  all_goals try (have h3 := dropWhileLenLE bareRegexTest other; omega)
  all_goals exact Nat.lt_succ_of_le (dropWhileLenLE _ _)

/-- Entry point of the exclusion-based `substitute`. -/
def substituteExclusion (str : String) (fn : String → Option String)
    (percent dollar strict : Bool) : Except Err String :=
  substituteExclusionAux fn percent dollar strict str.toList

/-- One item of the output decomposition: either a literal chunk or a
recognized variable reference carrying its extracted name. -/
inductive Piece where
  | lit (s : String)
  | ref (name : String)
deriving DecidableEq, Repr

/-- Value contributed to the output by one piece: a literal chunk is
itself; a reference is the resolver's answer, empty string when the
resolver yields no value. -/
def renderPiece (fn : String → Option String) : Piece → String
  | .lit s => s
  | .ref n => (fn n).getD ""

/-- Left-to-right concatenation of the rendered pieces. -/
def renderPieces (fn : String → Option String) : List Piece → String
  | [] => ""
  | p :: ps => renderPiece fn p ++ renderPieces fn ps

/-- Resolver-independent decomposition of the table-driven scan: same
control flow as `substituteAux`, but instead of invoking the resolver
it records each recognized reference (once, at its position) as a
`Piece.ref` and every literally copied text as `Piece.lit`. -/
def piecesAux (percent dollar strict : Bool) : List Char → Except Err (List Piece)
  | [] => .ok []
  | c :: rest =>
    if dollar && c == '$' then
      match rest with
      | '$' :: rest2 =>
        (piecesAux percent dollar strict rest2).map (fun ps => .lit "$" :: ps)
      | '\x7b' :: '\x7d' :: _ =>
        if strict then .error .noName else .ok [.lit "$\x7b\x7d"]
      | '\x7b' :: rest2 =>
        match rest2.dropWhile (fun ch => CHARS_DOLLAR_BRACE.contains ch) with
        | '\x7d' :: _ =>
          (piecesAux percent dollar strict
              ((rest2.dropWhile (fun ch => CHARS_DOLLAR_BRACE.contains ch)).tail)).map
            (fun ps => .ref (rest2.takeWhile (fun ch => CHARS_DOLLAR_BRACE.contains ch)).asString :: ps)
        | [] =>
          if strict then .error .unterminated
          else .ok [.lit ("$\x7b" ++ (rest2.takeWhile (fun ch => CHARS_DOLLAR_BRACE.contains ch)).asString)]
        | ch :: _ =>
          if strict then .error .badCharacter
          else
            (piecesAux percent dollar strict
                ((rest2.dropWhile (fun ch => CHARS_DOLLAR_BRACE.contains ch)).tail)).map
              (fun ps => .lit ("$\x7b" ++ (rest2.takeWhile (fun ch => CHARS_DOLLAR_BRACE.contains ch)).asString ++ String.singleton ch) :: ps)
      | other =>
        if (other.takeWhile (fun ch => CHARS_DOLLAR.contains ch)).isEmpty then
          match other with
          | [] => .ok [.lit "$"]
          | ch :: rest2 =>
            (piecesAux percent dollar strict rest2).map
              (fun ps => .lit ("$" ++ String.singleton ch) :: ps)
        else
          (piecesAux percent dollar strict
              (other.dropWhile (fun ch => CHARS_DOLLAR.contains ch))).map
            (fun ps => .ref (other.takeWhile (fun ch => CHARS_DOLLAR.contains ch)).asString :: ps)
    else if percent && c == '%' then
      if rest.head? == some '%' then
        (piecesAux percent dollar strict rest.tail).map (fun ps => .lit "%" :: ps)
      else
        match rest.dropWhile (fun ch => CHARS_PERCENT.contains ch) with
        | '%' :: _ =>
          (piecesAux percent dollar strict
              ((rest.dropWhile (fun ch => CHARS_PERCENT.contains ch)).tail)).map
            (fun ps => .ref (rest.takeWhile (fun ch => CHARS_PERCENT.contains ch)).asString :: ps)
        | [] =>
          if strict then .error .unterminated
          else .ok [.lit ("%" ++ (rest.takeWhile (fun ch => CHARS_PERCENT.contains ch)).asString)]
        | ch :: _ =>
          if strict then .error .badCharacter
          else
            (piecesAux percent dollar strict
                ((rest.dropWhile (fun ch => CHARS_PERCENT.contains ch)).tail)).map
              (fun ps => .lit ("%" ++ (rest.takeWhile (fun ch => CHARS_PERCENT.contains ch)).asString ++ String.singleton ch) :: ps)
    else
      (piecesAux percent dollar strict rest).map
        (fun ps => .lit (String.singleton c) :: ps)
termination_by cs => cs.length
decreasing_by
  all_goals simp only [List.length_cons, List.length_tail]
  all_goals try omega
  all_goals try (have h3 := dropWhileLenLE (fun ch => CHARS_DOLLAR_BRACE.contains ch) rest2; omega)
  all_goals try (have h3 := dropWhileLenLE (fun ch => CHARS_PERCENT.contains ch) rest; omega)
  all_goals try (have h3 := dropWhileLenLE (fun ch => CHARS_PERCENT.contains ch) rest2; omega)
  all_goals try (have h3 := dropWhileLenLE (fun ch => CHARS_PERCENT.contains ch) other; omega)
  all_goals try (have h3 := dropWhileLenLE (fun ch => CHARS_DOLLAR.contains ch) other; omega)
  all_goals exact Nat.lt_succ_of_le (dropWhileLenLE _ _)

/-- Fuel-indexed version of the table-driven scan: identical branch
structure to `substituteAux`, but consuming one unit of fuel per outer
iteration and returning `none` on fuel exhaustion.  It makes the
termination bound of the scan an explicit, kernel-computable statement:
fuel exceeding the input length always suffices. -/
def substituteFuel (fn : String → Option String) (percent dollar strict : Bool) :
    Nat → List Char → Option (Except Err String)
  | 0, _ => none
  | _ + 1, [] => some (.ok "")
  | fuel + 1, c :: rest =>
    if dollar && c == '$' then
      match rest with
      | '$' :: rest2 =>
        (substituteFuel fn percent dollar strict fuel rest2).map
          (Except.map (fun s => "$" ++ s))
      | '\x7b' :: '\x7d' :: _ =>
        if strict then some (.error .noName) else some (.ok "$\x7b\x7d")
      | '\x7b' :: rest2 =>
        match rest2.dropWhile (fun ch => CHARS_DOLLAR_BRACE.contains ch) with
        | '\x7d' :: _ =>
          (substituteFuel fn percent dollar strict fuel
              ((rest2.dropWhile (fun ch => CHARS_DOLLAR_BRACE.contains ch)).tail)).map
            (Except.map (fun s => ((fn (rest2.takeWhile (fun ch => CHARS_DOLLAR_BRACE.contains ch)).asString).getD "") ++ s))
        | [] =>
          if strict then some (.error .unterminated)
          else some (.ok ("$\x7b" ++ (rest2.takeWhile (fun ch => CHARS_DOLLAR_BRACE.contains ch)).asString))
        | ch :: _ =>
          if strict then some (.error .badCharacter)
          else
            (substituteFuel fn percent dollar strict fuel
                ((rest2.dropWhile (fun ch => CHARS_DOLLAR_BRACE.contains ch)).tail)).map
              (Except.map (fun s => "$\x7b" ++ (rest2.takeWhile (fun ch => CHARS_DOLLAR_BRACE.contains ch)).asString ++ String.singleton ch ++ s))
      | other =>
        if (other.takeWhile (fun ch => CHARS_DOLLAR.contains ch)).isEmpty then
          match other with
          | [] => some (.ok "$")
          | ch :: rest2 =>
            (substituteFuel fn percent dollar strict fuel rest2).map
              (Except.map (fun s => "$" ++ String.singleton ch ++ s))
        else
          (substituteFuel fn percent dollar strict fuel
              (other.dropWhile (fun ch => CHARS_DOLLAR.contains ch))).map
            (Except.map (fun s => ((fn (other.takeWhile (fun ch => CHARS_DOLLAR.contains ch)).asString).getD "") ++ s))
    else if percent && c == '%' then
      if rest.head? == some '%' then
        (substituteFuel fn percent dollar strict fuel rest.tail).map
          (Except.map (fun s => "%" ++ s))
      else
        match rest.dropWhile (fun ch => CHARS_PERCENT.contains ch) with
        | '%' :: _ =>
          (substituteFuel fn percent dollar strict fuel
              ((rest.dropWhile (fun ch => CHARS_PERCENT.contains ch)).tail)).map
            (Except.map (fun s => ((fn (rest.takeWhile (fun ch => CHARS_PERCENT.contains ch)).asString).getD "") ++ s))
        | [] =>
          if strict then some (.error .unterminated)
          else some (.ok ("%" ++ (rest.takeWhile (fun ch => CHARS_PERCENT.contains ch)).asString))
        | ch :: _ =>
          if strict then some (.error .badCharacter)
          else
            (substituteFuel fn percent dollar strict fuel
                ((rest.dropWhile (fun ch => CHARS_PERCENT.contains ch)).tail)).map
              (Except.map (fun s => "%" ++ (rest.takeWhile (fun ch => CHARS_PERCENT.contains ch)).asString ++ String.singleton ch ++ s))
    else
      (substituteFuel fn percent dollar strict fuel rest).map
        (Except.map (fun s => String.singleton c ++ s))

/-- Discriminator for scan results: did the call return normally? -/
def exceptIsOk {e a : Type} : Except e a → Bool
  | .ok _ => true
  | .error _ => false

/-- Modelled from the spec (section 4, character classes): a printable
ASCII character, i.e. code point between 0x20 (space) and 0x7E
inclusive. -/
def printableASCII (c : Char) : Bool :=
  decide (32 ≤ c.toNat ∧ c.toNat ≤ 126)

/-- Modelled from the spec: the claimed brace-safe class, all printable
ASCII except the closing brace and the reserved equals sign. -/
def braceSafeSpec (c : Char) : Bool :=
  printableASCII c && !(c == '\x7d') && !(c == '=')

/-- Modelled from the spec: the claimed percent-safe class, all
printable ASCII except the percent sign and the reserved equals
sign. -/
def percentSafeSpec (c : Char) : Bool :=
  printableASCII c && !(c == '%') && !(c == '=')

theorem exceptIsOk_map {e a b : Type} (f : a → b) (x : Except e a) :
    exceptIsOk (x.map f) = exceptIsOk x := by
  cases x <;> rfl

theorem exceptIsOk_ok {e a : Type} (x : a) :
    exceptIsOk (Except.ok x : Except e a) = true := rfl

set_option maxHeartbeats 1000000 in
theorem substituteAux_lenient_isOk (fn : String → Option String) (p d : Bool) (cs : List Char) :
    exceptIsOk (substituteAux fn p d false cs) = true := by
  refine substituteAux.induct fn p d false
    (fun l => exceptIsOk (substituteAux fn p d false l) = true)
    ?_ ?_ ?_ ?_ ?_ ?_ ?_ ?_ ?_ ?_ ?_ ?_ ?_ ?_ ?_ ?_ ?_ ?_ ?_ cs
  all_goals intros
  all_goals try (exact absurd (by assumption : (false : Bool) = true) (by decide))
  all_goals show exceptIsOk _ = true
  all_goals try simp only [List.contains, List.elem_eq_mem] at *
  all_goals rw [substituteAux.eq_def]
  all_goals simp [*, exceptIsOk_map, exceptIsOk_ok]
  all_goals (rename_i hx ih
             rw [hx, List.tail_cons] at ih
             exact ih)

theorem except_map_ok_iff {e a b : Type} (f : a → b) (x : Except e a) (y : b) :
    x.map f = .ok y ↔ ∃ z, x = .ok z ∧ y = f z := by
  cases x <;> simp [Except.map]
  exact eq_comm

set_option maxHeartbeats 1000000 in
theorem substituteAux_strict_le_lenient (fn : String → Option String) (p d : Bool)
    (cs : List Char) :
    ∀ out, substituteAux fn p d true cs = .ok out →
      substituteAux fn p d false cs = .ok out := by
  refine substituteAux.induct fn p d true
    (fun l => ∀ o, substituteAux fn p d true l = .ok o →
      substituteAux fn p d false l = .ok o)
    ?_ ?_ ?_ ?_ ?_ ?_ ?_ ?_ ?_ ?_ ?_ ?_ ?_ ?_ ?_ ?_ ?_ ?_ ?_ cs
  all_goals intros
  all_goals try (exact absurd (rfl : (true : Bool) = true) (by assumption))
  all_goals show ∀ o, substituteAux fn p d true _ = Except.ok o →
    substituteAux fn p d false _ = Except.ok o
  all_goals intro o h
  all_goals rw [substituteAux.eq_def] at h
  all_goals try simp only [List.contains, List.elem_eq_mem] at *
  all_goals simp [*, except_map_ok_iff] at h
  all_goals rw [substituteAux.eq_def]
  all_goals try obtain ⟨z, hz, rfl⟩ := h
  all_goals first
    | (rename_i hx ih
       rw [hx, List.tail_cons] at ih
       simp [*, ih z hz, Except.map])
    | (rename_i ih
       simp [*, ih z hz, Except.map])
    | (rename_i ih hEmpty
       simp [*, ih z hz, Except.map])
    | simp [*]

theorem map_render_err (fn : String → Option String) (e : Err) :
    Except.map (renderPieces fn) (.error e : Except Err (List Piece)) = .error e := rfl

theorem map_render_ok_nil (fn : String → Option String) :
    Except.map (renderPieces fn) (.ok [] : Except Err (List Piece)) = .ok "" := rfl

theorem map_render_ok_single_lit (fn : String → Option String) (s : String) :
    Except.map (renderPieces fn) (.ok [Piece.lit s] : Except Err (List Piece)) = .ok s := by
  simp [Except.map, renderPieces, renderPiece]

theorem map_render_cons (fn : String → Option String) (x : Except Err (List Piece))
    (pc : Piece) :
    Except.map (renderPieces fn) (x.map (fun ps => pc :: ps))
      = Except.map (fun s => renderPiece fn pc ++ s) (x.map (renderPieces fn)) := by
  cases x <;> simp [Except.map, renderPieces]

set_option maxHeartbeats 1000000 in
theorem substituteAux_eq_renderPieces (fn : String → Option String) (p d st : Bool)
    (cs : List Char) :
    substituteAux fn p d st cs = (piecesAux p d st cs).map (renderPieces fn) := by
  refine substituteAux.induct fn p d st
    (fun l => substituteAux fn p d st l = (piecesAux p d st l).map (renderPieces fn))
    ?_ ?_ ?_ ?_ ?_ ?_ ?_ ?_ ?_ ?_ ?_ ?_ ?_ ?_ ?_ ?_ ?_ ?_ ?_ cs
  all_goals intros
  all_goals show substituteAux fn p d st _ = (piecesAux p d st _).map (renderPieces fn)
  all_goals try simp only [List.contains, List.elem_eq_mem] at *
  all_goals rw [substituteAux.eq_def, piecesAux.eq_def]
  all_goals try (rename_i hx ih; rw [hx, List.tail_cons] at ih)
  all_goals try simp only [Bool.not_eq_true] at *
  all_goals try subst st
  all_goals simp [*, map_render_cons, map_render_err, map_render_ok_nil,
    map_render_ok_single_lit, renderPiece]

theorem length_lt_of_dropWhile_cons {P : Char → Bool} {L tl : List Char} {a : Char}
    (h : L.dropWhile P = a :: tl) : tl.length < L.length := by
  have hle := dropWhileLenLE P L
  rw [h] at hle
  simp only [List.length_cons] at hle
  omega

set_option maxHeartbeats 1600000 in
theorem substituteFuel_spec (fn : String → Option String) (p d st : Bool) (cs : List Char) :
    ∀ fuel, cs.length < fuel →
      substituteFuel fn p d st fuel cs = some (substituteAux fn p d st cs) := by
  refine substituteAux.induct fn p d st
    (fun l => ∀ fuel, l.length < fuel →
      substituteFuel fn p d st fuel l = some (substituteAux fn p d st l))
    ?_ ?_ ?_ ?_ ?_ ?_ ?_ ?_ ?_ ?_ ?_ ?_ ?_ ?_ ?_ ?_ ?_ ?_ ?_ cs
  all_goals intros
  all_goals show ∀ fuel, _ < fuel →
    substituteFuel fn p d st fuel _ = some (substituteAux fn p d st _)
  all_goals intro fuel hf
  all_goals (rcases fuel with _ | f
             · exact absurd hf (Nat.not_lt_zero _))
  all_goals try simp only [List.length_cons] at hf
  all_goals rw [substituteAux.eq_def]
  all_goals simp only [substituteFuel]
  case refine_2.succ =>
    rename_i ch hc rest2 ih
    simp [hc, ih f (by omega), Option.map]
  case refine_3.succ =>
    rename_i ch hc tl hst
    simp [hc, hst]
  case refine_4.succ =>
    rename_i ch hc tl hst
    simp [hc, hst]
  case refine_5.succ =>
    rename_i ch hc rest2 hnb tl hx ih
    have hb := length_lt_of_dropWhile_cons hx
    simp only [List.contains, List.elem_eq_mem] at hx ih
    rw [hx, List.tail_cons] at ih
    simp [hc, hx, ih f (by omega), Option.map]
  case refine_6.succ =>
    rename_i ch hc rest2 hnb hx hst
    simp only [List.contains, List.elem_eq_mem] at hx
    simp [hc, hx, hst]
  case refine_7.succ =>
    rename_i ch hc rest2 hnb hx hst
    simp only [List.contains, List.elem_eq_mem] at hx
    simp [hc, hx, hst]
  case refine_8.succ =>
    rename_i ch hc rest2 hnb ch1 tl hne hx hst
    simp only [List.contains, List.elem_eq_mem] at hx
    simp [hc, hx, hst]
  case refine_9.succ =>
    rename_i ch hc rest2 hnb ch1 tl hne hx hst ih
    simp only [Bool.not_eq_true] at hst
    subst hst
    have hb := length_lt_of_dropWhile_cons hx
    simp only [List.contains, List.elem_eq_mem] at hx ih
    rw [hx, List.tail_cons] at ih
    simp [hc, hx, ih f (by omega), Option.map]
  case refine_10.succ =>
    rename_i ch hc h1 h2 h3 hEmpty
    simp [hc, hEmpty]
  case refine_11.succ =>
    rename_i ch hc ch1 rest2 h1 h2 h3 hEmpty ih
    simp only [List.contains, List.elem_eq_mem] at hEmpty
    simp only [List.takeWhile_cons] at hEmpty
    have hnotin : ¬(ch1 ∈ CHARS_DOLLAR) := by
      by_contra hin
      simp [hin] at hEmpty
    simp [hc, h1, h2, h3, hnotin, ih f (by omega), Option.map]
  case refine_12.succ =>
    rename_i ch hc other h1 h2 h3 hne ih
    have hb := dropWhileLenLE (fun ch => decide (ch ∈ CHARS_DOLLAR)) other
    simp only [List.contains, List.elem_eq_mem] at ih hne
    simp [hc, h1, h2, h3, hne, ih f (by omega), Option.map]
  case refine_13.succ =>
    rename_i ch rest2 hnd hp hh ih
    obtain ⟨ys, rfl⟩ := List.head?_eq_some_iff.mp (by simpa using hh)
    simp only [List.tail_cons] at ih
    simp only [List.length_cons] at hf
    simp [hnd, hp, ih f (by omega), Option.map]
  case refine_14.succ =>
    rename_i ch rest2 hnd hp hh tl hx ih
    have hb := length_lt_of_dropWhile_cons hx
    simp only [List.contains, List.elem_eq_mem] at hx ih
    rw [hx, List.tail_cons] at ih
    simp [hnd, hp, hh, hx, ih f (by omega), Option.map]
  case refine_15.succ =>
    rename_i ch rest2 hnd hp hh hx hst
    simp only [List.contains, List.elem_eq_mem] at hx
    simp [hnd, hp, hh, hx, hst]
  case refine_16.succ =>
    rename_i ch rest2 hnd hp hh hx hst
    simp only [List.contains, List.elem_eq_mem] at hx
    simp [hnd, hp, hh, hx, hst]
  case refine_17.succ =>
    rename_i ch rest2 hnd hp hh ch1 tl hne hx hst
    simp only [List.contains, List.elem_eq_mem] at hx
    simp [hnd, hp, hh, hx, hst]
  case refine_18.succ =>
    rename_i ch rest2 hnd hp hh ch1 tl hne hx hst ih
    simp only [Bool.not_eq_true] at hst
    subst hst
    have hb := length_lt_of_dropWhile_cons hx
    simp only [List.contains, List.elem_eq_mem] at hx ih
    rw [hx, List.tail_cons] at ih
    simp [hnd, hp, hh, hx, ih f (by omega), Option.map]
  case refine_19.succ =>
    rename_i ch rest2 hnd hnp ih
    simp [hnd, hnp, ih f (by omega), Option.map]

theorem singleton_append_asString (c : Char) (l : List Char) :
    String.singleton c ++ l.asString = (c :: l).asString := rfl

set_option maxHeartbeats 1000000 in
theorem substituteAux_both_off (fn : String → Option String) (st : Bool) (cs : List Char) :
    substituteAux fn false false st cs = .ok cs.asString := by
  refine substituteAux.induct fn false false st
    (fun l => substituteAux fn false false st l = .ok l.asString)
    ?_ ?_ ?_ ?_ ?_ ?_ ?_ ?_ ?_ ?_ ?_ ?_ ?_ ?_ ?_ ?_ ?_ ?_ ?_ cs
  all_goals intros
  all_goals try (exact absurd (by assumption : (false && _ == '$') = true) (by simp))
  all_goals try (exact absurd (by assumption : (false && _ == '%') = true) (by simp))
  all_goals show substituteAux fn false false st _ = .ok _
  all_goals rw [substituteAux.eq_def]
  all_goals first
    | rfl
    | simp [*, Except.map, singleton_append_asString]

set_option maxHeartbeats 1600000 in
theorem substituteAux_no_dollar (fn : String → Option String) (p st : Bool) (cs : List Char) :
    ('$' : Char) ∉ cs →
    substituteAux fn p true st cs = substituteAux fn p false st cs := by
  refine substituteAux.induct fn p true st
    (fun l => ('$' : Char) ∉ l →
      substituteAux fn p true st l = substituteAux fn p false st l)
    ?_ ?_ ?_ ?_ ?_ ?_ ?_ ?_ ?_ ?_ ?_ ?_ ?_ ?_ ?_ ?_ ?_ ?_ ?_ cs
  all_goals intros
  all_goals show ('$' : Char) ∉ _ →
    substituteAux fn p true st _ = substituteAux fn p false st _
  all_goals intro hmem
  all_goals try simp_all
  all_goals rw [substituteAux.eq_def, substituteAux.eq_def]
  all_goals try (rename_i hx ih
                 simp only [List.contains, List.elem_eq_mem] at hx ih
                 rw [hx, List.tail_cons] at ih)
  all_goals simp_all
  case refine_13 =>
    rename_i hh ih
    rw [ih (fun hm => hmem ((List.tail_sublist _).subset hm))]
  case refine_14 =>
    rename_i hx ih
    rw [ih (fun hm => hmem (List.dropWhile_subset _ (hx.symm ▸ List.mem_cons_of_mem _ hm)))]
  case refine_15 =>
    rename_i hall hstv
    have hx : List.dropWhile (fun ch => decide (ch ∈ CHARS_PERCENT)) ‹List Char› = [] :=
      List.dropWhile_eq_nil_iff.mpr (fun x hxm => by simpa using hall x hxm)
    rw [hx]
  case refine_16 =>
    rename_i hall hstv
    have hx : List.dropWhile (fun ch => decide (ch ∈ CHARS_PERCENT)) ‹List Char› = [] :=
      List.dropWhile_eq_nil_iff.mpr (fun x hxm => by simpa using hall x hxm)
    rw [hx]
  case refine_18 =>
    rename_i hx hstv ih
    rw [ih (fun hm => hmem (List.dropWhile_subset _ (hx.symm ▸ List.mem_cons_of_mem _ hm)))]
  case refine_19 =>
    rename_i hnd hnp ih
    by_cases hp2 : p = true ∧ ‹Char› = '%'
    · exact absurd hp2.2 (hnp hp2.1)
    · simp [hp2]


set_option maxHeartbeats 1600000 in
theorem substituteAux_no_percent (fn : String → Option String) (d st : Bool) (cs : List Char) :
    ('%' : Char) ∉ cs →
    substituteAux fn true d st cs = substituteAux fn false d st cs := by
  refine substituteAux.induct fn true d st
    (fun l => ('%' : Char) ∉ l →
      substituteAux fn true d st l = substituteAux fn false d st l)
    ?_ ?_ ?_ ?_ ?_ ?_ ?_ ?_ ?_ ?_ ?_ ?_ ?_ ?_ ?_ ?_ ?_ ?_ ?_ cs
  all_goals intros
  all_goals show ('%' : Char) ∉ _ →
    substituteAux fn true d st _ = substituteAux fn false d st _
  all_goals intro hmem
  all_goals try (refine absurd ?_ hmem
                 simp_all
                 done)
  all_goals rw [substituteAux.eq_def, substituteAux.eq_def]
  all_goals try (rename_i hx ih
                 simp only [List.contains, List.elem_eq_mem] at hx ih
                 rw [hx, List.tail_cons] at ih)
  case refine_2 =>
    rename_i ch hc rest2 ih
    have ih2 := ih (fun hm => hmem (List.mem_cons_of_mem _ (List.mem_cons_of_mem _ hm)))
    simp [*, ih2]
  case refine_3 => simp [*]
  case refine_4 => simp [*]
  case refine_5 =>
    have ih2 := ih (fun hm => hmem (List.mem_cons_of_mem _ (List.mem_cons_of_mem _
      (List.dropWhile_subset _ (hx.symm ▸ List.mem_cons_of_mem _ hm)))))
    simp [*, ih2]
  case refine_6 =>
    rename_i hx hstt
    simp only [List.contains, List.elem_eq_mem] at hx
    simp [*]
  case refine_7 =>
    rename_i hx hstt
    simp only [List.contains, List.elem_eq_mem] at hx
    simp [*]
  case refine_8 =>
    rename_i hx hstt
    simp only [List.contains, List.elem_eq_mem] at hx
    simp [*]
  case refine_9 =>
    rename_i ch hc rest2 hnb ch1 tl hne hx hstrict ih
    simp only [Bool.not_eq_true] at hstrict
    subst hstrict
    simp only [List.contains, List.elem_eq_mem] at hx ih
    rw [hx, List.tail_cons] at ih
    have ih2 := ih (fun hm => hmem (List.mem_cons_of_mem _ (List.mem_cons_of_mem _
      (List.dropWhile_subset _ (hx.symm ▸ List.mem_cons_of_mem _ hm)))))
    simp [*, ih2]
  case refine_10 => simp [*]
  case refine_11 =>
    rename_i ch hc ch1 rest2 h1 h2 h3 hEmpty ih
    have ih2 := ih (fun hm => hmem (List.mem_cons_of_mem _ (List.mem_cons_of_mem _ hm)))
    simp only [List.contains, List.elem_eq_mem] at hEmpty
    simp only [List.takeWhile_cons] at hEmpty
    have hnotin : ¬(ch1 ∈ CHARS_DOLLAR) := by
      by_contra hin
      simp [hin] at hEmpty
    simp [*, ih2, hnotin]
  case refine_12 =>
    rename_i ch hc other h1 h2 h3 hne ih
    simp only [List.contains, List.elem_eq_mem] at ih hne
    have ih2 := ih (fun hm => hmem (List.mem_cons_of_mem _ (List.dropWhile_subset _ hm)))
    simp [*, ih2]
  case refine_19 =>
    rename_i ch rest2 hnd hnp ih
    have ih2 := ih (fun hm => hmem (List.mem_cons_of_mem _ hm))
    simp [*, ih2]

theorem char_eq_iff_toNat {c d : Char} : c = d ↔ c.toNat = d.toNat := by
  constructor
  · exact fun h => h ▸ rfl
  · intro h
    have h2 := congrArg Char.ofNat h
    rwa [Char.ofNat_toNat, Char.ofNat_toNat] at h2

theorem mem_charList_iff_toNat (l : List Char) (c : Char) :
    c ∈ l ↔ c.toNat ∈ l.map Char.toNat := by
  constructor
  · exact fun h => List.mem_map_of_mem _ h
  · intro h
    rcases List.mem_map.mp h with ⟨d, hd, he⟩
    have hdc : d = c := by
      have h2 := congrArg Char.ofNat he
      rwa [Char.ofNat_toNat, Char.ofNat_toNat] at h2
    exact hdc ▸ hd

set_option maxHeartbeats 4000000 in
set_option maxRecDepth 20000 in
theorem charNat_bounded :
    ∀ n, n < 128 →
      ((n ∈ CHARS_DOLLAR_BRACE.map Char.toNat ↔
         (32 ≤ n ∧ n ≤ 126 ∧ ¬n = 125 ∧ ¬n = 61 ∧ ¬n = 92)) ∧
       (n ∈ CHARS_PERCENT.map Char.toNat ↔
         (32 ≤ n ∧ n ≤ 126 ∧ ¬n = 37 ∧ ¬n = 61 ∧ ¬n = 92))) := by decide

set_option maxHeartbeats 4000000 in
set_option maxRecDepth 20000 in
theorem charNat_small :
    (∀ m ∈ CHARS_DOLLAR_BRACE.map Char.toNat, m < 128) ∧
    (∀ m ∈ CHARS_PERCENT.map Char.toNat, m < 128) := by decide

set_option maxHeartbeats 4000000 in
theorem char_tables_printable (c : Char) :
    (c ∈ CHARS_DOLLAR_BRACE ↔
      (printableASCII c = true ∧ ¬c = '\x7d' ∧ ¬c = '=' ∧ ¬c = '\x5c')) ∧
    (c ∈ CHARS_PERCENT ↔
      (printableASCII c = true ∧ ¬c = '%' ∧ ¬c = '=' ∧ ¬c = '\x5c')) := by
  have e1 : (c = '\x7d') ↔ c.toNat = 125 := char_eq_iff_toNat
  have e2 : (c = '=') ↔ c.toNat = 61 := char_eq_iff_toNat
  have e3 : (c = '\x5c') ↔ c.toNat = 92 := char_eq_iff_toNat
  have e4 : (c = '%') ↔ c.toNat = 37 := char_eq_iff_toNat
  by_cases hc : c.toNat < 128
  · have h := charNat_bounded c.toNat hc
    constructor
    · rw [mem_charList_iff_toNat, h.1]
      simp only [printableASCII, decide_eq_true_iff, e1, e2, e3]
      tauto
    · rw [mem_charList_iff_toNat, h.2]
      simp only [printableASCII, decide_eq_true_iff, e4, e2, e3]
      tauto
  · constructor
    · constructor
      · intro hm
        exact absurd (charNat_small.1 _ (List.mem_map_of_mem _ hm)) (by omega)
      · intro hs
        have := hs.1
        simp only [printableASCII, decide_eq_true_iff] at this
        omega
    · constructor
      · intro hm
        exact absurd (charNat_small.2 _ (List.mem_map_of_mem _ hm)) (by omega)
      · intro hs
        have := hs.1
        simp only [printableASCII, decide_eq_true_iff] at this
        omega

theorem asString_toList (s : String) : s.toList.asString = s := rfl

/-- Claim C1 evaluation: in lenient mode the empty-brace arm executes
`break`, which leaves the outer scan loop, so the input after the
closing brace is dropped instead of being scanned. -/
theorem lenient_empty_brace_drops_rest (fn : String → Option String) (p : Bool) :
    substitute "$\x7b\x7dabc" fn p true false = .ok "$\x7b\x7d" := by
  simp +decide [substitute, substituteAux.eq_def, CHARS_DOLLAR, CHARS_DOLLAR_BRACE,
    CHARS_PERCENT, Except.map, String.toList]

/-- Claim C2: with strict disabled the scan never returns an error, for
every input, resolver and switch configuration. -/
theorem lenient_never_fails (str : String) (fn : String → Option String) (p d : Bool) :
    ∃ out, substitute str fn p d false = .ok out := by
  have h := substituteAux_lenient_isOk fn p d str.toList
  unfold substitute
  rcases hres : substituteAux fn p d false str.toList with e | out
  · rw [hres] at h
    simp [exceptIsOk] at h
  · exact ⟨out, rfl⟩

/-- Claim C3 counterexample: the backslash is printable ASCII and is
neither the closing delimiter nor the reserved equals sign, yet both
scan tables reject it. -/
theorem backslash_not_in_tables :
    braceSafeSpec '\x5c' = true ∧ percentSafeSpec '\x5c' = true ∧
    CHARS_DOLLAR_BRACE.contains '\x5c' = false ∧
    CHARS_PERCENT.contains '\x5c' = false := by
  refine ⟨rfl, rfl, ?_, ?_⟩ <;> decide

/-- Claim C3 (amended): the scan tables hold exactly the printable
ASCII characters other than the closing delimiter, the reserved equals
sign, and the backslash. -/
theorem char_tables_characterization (c : Char) :
    (c ∈ CHARS_DOLLAR_BRACE ↔
      (printableASCII c = true ∧ ¬c = '\x7d' ∧ ¬c = '=' ∧ ¬c = '\x5c')) ∧
    (c ∈ CHARS_PERCENT ↔
      (printableASCII c = true ∧ ¬c = '%' ∧ ¬c = '=' ∧ ¬c = '\x5c')) :=
  char_tables_printable c

/-- Claim C4: on a non-ASCII name the table-driven implementation
raises `BadCharacterError` in strict mode while the exclusion-based one
resolves the reference. -/
theorem table_vs_exclusion_unicode_divergence :
    substitute "$\x7bé\x7d" (fun n => some n) true true true = .error .badCharacter ∧
    substituteExclusion "$\x7bé\x7d" (fun n => some n) true true true = .ok "é" := by
  constructor
  · simp +decide [substitute, substituteAux.eq_def, CHARS_DOLLAR, CHARS_DOLLAR_BRACE,
      CHARS_PERCENT, Except.map, String.toList]
  · simp +decide [substituteExclusion, substituteExclusionAux.eq_def, bareRegexTest,
      invalidCharacters, Except.map, String.toList]

/-- Claim C5: whenever strict mode succeeds, lenient mode returns the
same output, for every resolver and switch configuration. -/
theorem strict_ok_implies_lenient_same (str : String) (fn : String → Option String)
    (p d : Bool) (out : String) (h : substitute str fn p d true = .ok out) :
    substitute str fn p d false = .ok out :=
  substituteAux_strict_le_lenient fn p d str.toList out h

theorem strict_ok_implies_lenient_same_witness :
    substitute "$a" (fun _ => some "Z") true true false = .ok "Z" :=
  strict_ok_implies_lenient_same "$a" (fun _ => some "Z") true true "Z"
    (by simp +decide [substitute, substituteAux.eq_def, CHARS_DOLLAR, CHARS_DOLLAR_BRACE,
      CHARS_PERCENT, Except.map, String.toList])

/-- Claim C6 counterexample: toggling the `dollar` switch changes how
the percent form in `$%x%` is handled, because with `dollar` enabled
the bare-dollar fallback consumes the first `%` as a literal. -/
theorem dollar_switch_affects_percent_form :
    substitute "$%x%" (fun _ => some "") true true false = .ok "$%x%" ∧
    substitute "$%x%" (fun _ => some "") true false false = .ok "$" := by
  constructor <;>
    simp +decide [substitute, substituteAux.eq_def, CHARS_DOLLAR, CHARS_DOLLAR_BRACE,
      CHARS_PERCENT, Except.map, String.toList]

/-- Claim C6 (amended): disabling both switches reproduces the input
unchanged; and a switch toggle cannot affect inputs that do not contain
that switch's delimiter character at all. -/
theorem switch_independence_amended :
    (∀ (str : String) (fn : String → Option String) (st : Bool),
      substitute str fn false false st = .ok str) ∧
    (∀ (str : String) (fn : String → Option String) (p st : Bool),
      ('$' : Char) ∉ str.toList →
        substitute str fn p true st = substitute str fn p false st) ∧
    (∀ (str : String) (fn : String → Option String) (d st : Bool),
      ('%' : Char) ∉ str.toList →
        substitute str fn true d st = substitute str fn false d st) := by
  refine ⟨fun str fn st => ?_, fun str fn p st h => ?_, fun str fn d st h => ?_⟩
  · rw [substitute, substituteAux_both_off, asString_toList]
  · exact substituteAux_no_dollar fn p st str.toList h
  · exact substituteAux_no_percent fn d st str.toList h

theorem switch_independence_amended_witness :
    substitute "a%b" (fun _ => some "") false false true = .ok "a%b" ∧
    substitute "%b%" (fun _ => some "X") true true true
      = substitute "%b%" (fun _ => some "X") true false true ∧
    substitute "$b" (fun _ => some "X") true true true
      = substitute "$b" (fun _ => some "X") false true true := by
  refine ⟨switch_independence_amended.1 "a%b" _ true,
          switch_independence_amended.2.1 "%b%" _ true true (by decide),
          switch_independence_amended.2.2 "$b" _ true true (by decide)⟩

/-- Claim C7: the doubled-delimiter escapes are handled before any
variable form, the resolver is never consulted for them, and `$$abc`
yields literal `$abc`; the decomposition of `$$abc` contains only
literal pieces, so no resolver call occurs. -/
theorem escapes_before_variable_forms (fn : String → Option String) (st p d : Bool) :
    substitute "$$" fn p true st = .ok "$" ∧
    substitute "%%" fn true d st = .ok "%" ∧
    substitute "$$abc" fn p true st = .ok "$abc" ∧
    piecesAux true true st ("$$abc".toList)
      = .ok [.lit "$", .lit "a", .lit "b", .lit "c"] := by
  refine ⟨?_, ?_, ?_, ?_⟩
  · simp +decide [substitute, substituteAux.eq_def, CHARS_DOLLAR, CHARS_DOLLAR_BRACE,
      CHARS_PERCENT, Except.map, String.toList]
  · simp +decide [substitute, substituteAux.eq_def, CHARS_DOLLAR, CHARS_DOLLAR_BRACE,
      CHARS_PERCENT, Except.map, String.toList]
  · simp +decide [substitute, substituteAux.eq_def, CHARS_DOLLAR, CHARS_DOLLAR_BRACE,
      CHARS_PERCENT, Except.map, String.toList]
  · simp +decide [piecesAux.eq_def, CHARS_DOLLAR, CHARS_DOLLAR_BRACE,
      CHARS_PERCENT, Except.map, String.toList]

/-- Claim C8: the scan factors through a resolver-independent list of
pieces in which every recognized reference occurs exactly once, in
input order; rendering maps each reference to the resolver's answer
(empty string when it yields no value) and concatenates left to
right. -/
theorem substitute_factors_through_pieces (str : String) (fn : String → Option String)
    (p d st : Bool) :
    substitute str fn p d st = (piecesAux p d st str.toList).map (renderPieces fn) :=
  substituteAux_eq_renderPieces fn p d st str.toList

/-- Claim C9: the scan terminates within fuel linear in the input
length: any fuel exceeding the length makes the fuel-indexed loop
return (successfully) the scan's result. -/
theorem substitute_terminates_linear_fuel (fn : String → Option String)
    (p d st : Bool) (cs : List Char) (fuel : Nat) (h : cs.length < fuel) :
    substituteFuel fn p d st fuel cs = some (substituteAux fn p d st cs) :=
  substituteFuel_spec fn p d st cs fuel h

theorem substitute_terminates_linear_fuel_witness :
    substituteFuel (fun _ => none) true true true 4 ("abc".toList)
      = some (substituteAux (fun _ => none) true true true ("abc".toList)) :=
  substitute_terminates_linear_fuel (fun _ => none) true true true ("abc".toList) 4
    (by decide)

/-- Claim C10: a trailing dollar that begins a bare-form scan is
emitted literally and never raises, in both modes and in both
implementations, while a trailing percent raises
`UnterminatedVariableError` in strict mode. -/
theorem trailing_dollar_literal (fn : String → Option String) (p d st : Bool) :
    substitute "$" fn p true st = .ok "$" ∧
    substituteExclusion "$" fn p true st = .ok "$" ∧
    substitute "%" fn true d true = .error .unterminated ∧
    substituteExclusion "%" fn true d true = .error .unterminated := by
  refine ⟨?_, ?_, ?_, ?_⟩
  · simp +decide [substitute, substituteAux.eq_def, CHARS_DOLLAR, CHARS_DOLLAR_BRACE,
      CHARS_PERCENT, Except.map, String.toList]
  · simp +decide [substituteExclusion, substituteExclusionAux.eq_def, bareRegexTest,
      invalidCharacters, Except.map, String.toList]
  · simp +decide [substitute, substituteAux.eq_def, CHARS_DOLLAR, CHARS_DOLLAR_BRACE,
      CHARS_PERCENT, Except.map, String.toList]
  · simp +decide [substituteExclusion, substituteExclusionAux.eq_def, bareRegexTest,
      invalidCharacters, Except.map, String.toList]
